import Mathlib

/-!
Shallow embedding of the Pokemon CRUD store from src/main.rs and
src/models.rs.

The shared state is a list of records (the Rust code uses a
Mutex-guarded Vec; each handler acquires the lock for its whole
duration, so every operation is an atomic step on the list and the
embedding treats each handler as a pure function from the list to a
new list plus a return value).

Rust u32 values are modelled as Nat; the single place where u32
arithmetic occurs (the id assignment in create_pokemon, which adds 1
to the last record's id) reduces modulo 2^32 to reflect u32 wrapping
addition.
-/

namespace PokeApi

/-- The u32 modulus: id arithmetic in the Rust source is u32 arithmetic. -/
def u32Mod : Nat := 2 ^ 32

/-- The largest u32 value. -/
def u32Max : Nat := u32Mod - 1

/-- Record shape from src/models.rs: struct Pokemon. -/
structure Pokemon where
  id : Nat
  name : String
  poke_type : String
  level : Nat
deriving DecidableEq, Repr

/-- Request body for creation, from src/models.rs: struct CreatePokemon. -/
structure CreatePokemon where
  name : String
  poke_type : String
  level : Nat
deriving DecidableEq, Repr

/-- Request body for update, from src/models.rs: struct UpdatePokemon;
all fields optional. -/
structure UpdatePokemon where
  name : Option String
  poke_type : Option String
  level : Option Nat
deriving DecidableEq, Repr

/-- Handler create_pokemon from src/main.rs: computes the new id as
(id of the last record) + 1 in u32 arithmetic, or 1 if the team is
empty, pushes the new record, and returns it. The pair is (new state,
returned record). -/
def create_pokemon (payload : CreatePokemon) (team : List Pokemon) :
    List Pokemon × Pokemon :=
  let new_id : Nat :=
    match team.getLast? with
    | some last_pokemon => (last_pokemon.id + 1) % u32Mod
    | none => 1
  let new_pokemon : Pokemon :=
    { id := new_id, name := payload.name, poke_type := payload.poke_type,
      level := payload.level }
  (team ++ [new_pokemon], new_pokemon)

/-- Handler get_all_pokemon from src/main.rs: clones the whole team. -/
def get_all_pokemon (team : List Pokemon) : List Pokemon :=
  team

/-- Handler get_pokemon_by_id from src/main.rs: scans for the first
record whose id matches; none models the 404 NOT_FOUND branch. -/
def get_pokemon_by_id (id : Nat) : List Pokemon → Option Pokemon
  | [] => none
  | p :: rest => if p.id = id then some p else get_pokemon_by_id id rest

/-- The in-place field overwrites inside update_pokemon: each present
optional field of the payload overwrites the stored field, absent
fields are left alone. -/
def applyUpdate (payload : UpdatePokemon) (p : Pokemon) : Pokemon :=
  let p1 := match payload.name with
    | some name => { p with name := name }
    | none => p
  let p2 := match payload.poke_type with
    | some poke_type => { p1 with poke_type := poke_type }
    | none => p1
  match payload.level with
  | some level => { p2 with level := level }
  | none => p2

/-- Handler update_pokemon from src/main.rs: finds the first record
with the given id, mutates its present fields, and returns a clone of
it; none models the 404 NOT_FOUND branch. The pair is (new state,
returned record). -/
def update_pokemon (id : Nat) (payload : UpdatePokemon) :
    List Pokemon → List Pokemon × Option Pokemon
  | [] => ([], none)
  | p :: rest =>
    if p.id = id then
      let p := applyUpdate payload p
      (p :: rest, some p)
    else
      let r := update_pokemon id payload rest
      (p :: r.1, r.2)

/-- Handler delete_pokemon from src/main.rs: retains the records whose
id differs, then reports success iff the length strictly decreased.
The pair is (new state, true for 204 NO_CONTENT / false for 404
NOT_FOUND). -/
def delete_pokemon (id : Nat) (team : List Pokemon) : List Pokemon × Bool :=
  let original_len := team.length
  let team2 := team.filter (fun p => p.id != id)
  (team2, decide (team2.length < original_len))

/-- One mutating request against the store (the read-only handlers do
not change the state). -/
inductive Op where
  | createOp (payload : CreatePokemon)
  | updateOp (id : Nat) (payload : UpdatePokemon)
  | deleteOp (id : Nat)
deriving DecidableEq, Repr

/-- The state transition performed by one request handler. -/
def applyOp (team : List Pokemon) : Op → List Pokemon
  | .createOp payload => (create_pokemon payload team).1
  | .updateOp id payload => (update_pokemon id payload team).1
  | .deleteOp id => (delete_pokemon id team).1

/-- Run a sequence of requests starting from a given state. -/
def execFrom (team : List Pokemon) (ops : List Op) : List Pokemon :=
  ops.foldl applyOp team

/-- Run a sequence of requests starting from the empty collection
(the server starts with an empty team). -/
def exec (ops : List Op) : List Pokemon :=
  execFrom [] ops

/-- A state is reachable when some request sequence produces it from
the empty collection. -/
def Reachable (team : List Pokemon) : Prop :=
  ∃ ops : List Op, exec ops = team

/-- Number of create requests in a request sequence. -/
def createCount (ops : List Op) : Nat :=
  ops.countP (fun op => match op with | .createOp _ => true | _ => false)

/-- The id sequence of a state in insertion order. -/
def ids (team : List Pokemon) : List Nat :=
  team.map Pokemon.id

/-! ### Concrete records used to witness the theorems -/

/-- A concrete record, as created by the spec scenario. -/
def pikachu : Pokemon :=
  { id := 1, name := "Pikachu", poke_type := "Electric", level := 5 }

/-- A second concrete record. -/
def bulbasaur : Pokemon :=
  { id := 2, name := "Bulbasaur", poke_type := "Grass", level := 3 }

/-- The creation request for the second record. -/
def bulbasaurReq : CreatePokemon :=
  { name := "Bulbasaur", poke_type := "Grass", level := 3 }

/-- A partial update carrying only a new level. -/
def levelTen : UpdatePokemon :=
  { name := none, poke_type := none, level := some 10 }

/-- Invariant carried through reachable states built with at most n
creations and no id wraparound: the id sequence strictly increases in
insertion order and every id is at most n. -/
def StoreInv (n : Nat) (team : List Pokemon) : Prop :=
  (ids team).Pairwise (· < ·) ∧ ∀ p ∈ team, p.id ≤ n

/-- The record produced by bulbasaurReq at a given id. -/
def mkP (i : Nat) : Pokemon :=
  { id := i, name := "Bulbasaur", poke_type := "Grass", level := 3 }

/-- The collection of records with consecutive ids a, a+1, ..., a+len-1,
all created from bulbasaurReq. -/
def seg (a len : Nat) : List Pokemon :=
  (List.range' a len).map mkP

/-- A reachable state holding the id 2^32 - 1 twice: once at the front
and once as the last element of the trailing segment 0..2^32-1. -/
def badDup : List Pokemon :=
  mkP u32Max :: seg 0 (u32Max + 1)

/-! ### Basic lemmas about the handlers -/

theorem applyUpdate_id (payload : UpdatePokemon) (p : Pokemon) :
    (applyUpdate payload p).id = p.id := by
  unfold applyUpdate
  cases payload.name <;> cases payload.poke_type <;> cases payload.level <;> rfl

theorem applyUpdate_name (payload : UpdatePokemon) (p : Pokemon) :
    (applyUpdate payload p).name = payload.name.getD p.name := by
  unfold applyUpdate
  cases payload.name <;> cases payload.poke_type <;> cases payload.level <;> rfl

theorem applyUpdate_poke_type (payload : UpdatePokemon) (p : Pokemon) :
    (applyUpdate payload p).poke_type = payload.poke_type.getD p.poke_type := by
  unfold applyUpdate
  cases payload.name <;> cases payload.poke_type <;> cases payload.level <;> rfl

theorem applyUpdate_level (payload : UpdatePokemon) (p : Pokemon) :
    (applyUpdate payload p).level = payload.level.getD p.level := by
  unfold applyUpdate
  cases payload.name <;> cases payload.poke_type <;> cases payload.level <;> rfl

theorem applyUpdate_none (payload : UpdatePokemon) (p : Pokemon)
    (hn : payload.name = none) (ht : payload.poke_type = none)
    (hl : payload.level = none) : applyUpdate payload p = p := by
  cases payload
  simp_all [applyUpdate]

theorem applyUpdate_level_only (payload : UpdatePokemon) (p : Pokemon)
    (lv : Nat) (hn : payload.name = none) (ht : payload.poke_type = none)
    (hl : payload.level = some lv) :
    applyUpdate payload p = { p with level := lv } := by
  cases payload
  simp_all [applyUpdate]

/-- Splitting lemma for a successful update: the state decomposes at the
first record carrying the requested id. -/
theorem update_pokemon_found :
    ∀ (team : List Pokemon) (id : Nat) (payload : UpdatePokemon),
      (∃ p ∈ team, p.id = id) →
      ∃ l1 p l2, team = l1 ++ p :: l2 ∧ p.id = id ∧ (∀ q ∈ l1, q.id ≠ id) ∧
        update_pokemon id payload team =
          (l1 ++ applyUpdate payload p :: l2, some (applyUpdate payload p))
  | [], id, payload, h => by simp at h
  | p :: rest, id, payload, h => by
    by_cases hp : p.id = id
    · exact ⟨[], p, rest, rfl, hp, by simp, by simp [update_pokemon, hp]⟩
    · have hrest : ∃ q ∈ rest, q.id = id := by
        obtain ⟨q, hq, hqid⟩ := h
        rcases List.mem_cons.mp hq with rfl | hq2
        · exact absurd hqid hp
        · exact ⟨q, hq2, hqid⟩
      obtain ⟨l1, q, l2, hteam, hqid, hl1, heq⟩ :=
        update_pokemon_found rest id payload hrest
      refine ⟨p :: l1, q, l2, by simp [hteam], hqid, ?_, ?_⟩
      · intro r hr
        rcases List.mem_cons.mp hr with rfl | hr2
        · exact hp
        · exact hl1 r hr2
      · simp [update_pokemon, hp, heq]

theorem update_pokemon_miss (team : List Pokemon) (id : Nat)
    (payload : UpdatePokemon) (h : ∀ p ∈ team, p.id ≠ id) :
    update_pokemon id payload team = (team, none) := by
  induction team with
  | nil => rfl
  | cons p rest ih =>
    have hp : p.id ≠ id := h p (List.mem_cons_self ..)
    have hrest := ih fun q hq => h q (List.mem_cons_of_mem _ hq)
    simp [update_pokemon, hp, hrest]

theorem ids_update_pokemon (team : List Pokemon) (id : Nat)
    (payload : UpdatePokemon) :
    ids (update_pokemon id payload team).1 = ids team := by
  induction team with
  | nil => rfl
  | cons p rest ih =>
    by_cases hp : p.id = id
    · simp [update_pokemon, hp, ids, applyUpdate_id]
    · simp only [update_pokemon, if_neg hp, ids, List.map_cons]
      simpa [ids] using ih

theorem ids_cons (p : Pokemon) (l : List Pokemon) : ids (p :: l) = p.id :: ids l :=
  rfl

theorem ids_append (l1 l2 : List Pokemon) : ids (l1 ++ l2) = ids l1 ++ ids l2 := by
  simp [ids]

/-- Equation for create_pokemon on a nonempty collection. -/
theorem create_pokemon_of_getLast_some (payload : CreatePokemon)
    (team : List Pokemon) (last : Pokemon) (h : team.getLast? = some last) :
    create_pokemon payload team =
      (team ++ [{ id := (last.id + 1) % u32Mod, name := payload.name,
                  poke_type := payload.poke_type, level := payload.level }],
        { id := (last.id + 1) % u32Mod, name := payload.name,
          poke_type := payload.poke_type, level := payload.level }) := by
  unfold create_pokemon
  rw [h]

/-- Equation for create_pokemon on the empty collection. -/
theorem create_pokemon_of_getLast_none (payload : CreatePokemon)
    (team : List Pokemon) (h : team.getLast? = none) :
    create_pokemon payload team =
      (team ++ [{ id := 1, name := payload.name,
                  poke_type := payload.poke_type, level := payload.level }],
        { id := 1, name := payload.name,
          poke_type := payload.poke_type, level := payload.level }) := by
  unfold create_pokemon
  rw [h]

theorem get_pokemon_by_id_eq_none_iff (team : List Pokemon) (id : Nat) :
    get_pokemon_by_id id team = none ↔ ∀ p ∈ team, p.id ≠ id := by
  induction team with
  | nil => simp [get_pokemon_by_id]
  | cons p rest ih =>
    by_cases hp : p.id = id
    · simp [get_pokemon_by_id, hp]
    · simp [get_pokemon_by_id, hp, ih]

theorem get_pokemon_by_id_eq_some (team : List Pokemon) (id : Nat)
    (p : Pokemon) (h : get_pokemon_by_id id team = some p) :
    p.id = id ∧ ∃ l1 l2, team = l1 ++ p :: l2 ∧ ∀ q ∈ l1, q.id ≠ id := by
  induction team with
  | nil => simp [get_pokemon_by_id] at h
  | cons q rest ih =>
    by_cases hq : q.id = id
    · rw [get_pokemon_by_id, if_pos hq, Option.some.injEq] at h
      subst h
      exact ⟨hq, [], rest, rfl, by simp⟩
    · rw [get_pokemon_by_id, if_neg hq] at h
      obtain ⟨hpid, l1, l2, hteam, hl1⟩ := ih h
      refine ⟨hpid, q :: l1, l2, by simp [hteam], ?_⟩
      intro r hr
      rcases List.mem_cons.mp hr with rfl | hr2
      · exact hq
      · exact hl1 r hr2

theorem get_pokemon_by_id_after_update (team : List Pokemon) (id : Nat)
    (payload : UpdatePokemon) (p : Pokemon)
    (h : (update_pokemon id payload team).2 = some p) :
    get_pokemon_by_id id (update_pokemon id payload team).1 = some p := by
  induction team with
  | nil => simp [update_pokemon] at h
  | cons q rest ih =>
    by_cases hq : q.id = id
    · rw [update_pokemon] at h ⊢
      rw [if_pos hq] at h ⊢
      simp only [Option.some.injEq] at h
      subst h
      simp [get_pokemon_by_id, applyUpdate_id, hq]
    · rw [update_pokemon] at h ⊢
      rw [if_neg hq] at h ⊢
      simp only at h
      simp only [get_pokemon_by_id, if_neg hq]
      exact ih h

/-! ### The store invariant: strictly increasing ids bounded by the
number of creations performed, as long as no u32 wraparound occurs -/

theorem ids_le_getLast (team : List Pokemon) (last : Pokemon)
    (hpair : (ids team).Pairwise (· < ·)) (hlast : team.getLast? = some last) :
    ∀ p ∈ team, p.id ≤ last.id := by
  obtain ⟨l', rfl⟩ := List.getLast?_eq_some_iff.mp hlast
  rw [ids_append] at hpair
  have hlt := (List.pairwise_append.mp hpair).2.2
  intro p hp
  rcases List.mem_append.mp hp with hp' | hp'
  · exact le_of_lt (hlt p.id (List.mem_map_of_mem _ hp') last.id (by simp [ids]))
  · simp only [List.mem_singleton] at hp'
    subst hp'
    exact le_refl _

theorem storeInv_create (n : Nat) (team : List Pokemon)
    (payload : CreatePokemon) (hinv : StoreInv n team) (hn : n + 1 < u32Mod) :
    StoreInv (n + 1) (create_pokemon payload team).1 := by
  obtain ⟨hpair, hbound⟩ := hinv
  cases hlast : team.getLast? with
  | none =>
    have hteam : team = [] := List.getLast?_eq_none_iff.mp hlast
    subst hteam
    rw [create_pokemon_of_getLast_none payload [] hlast]
    constructor
    · simp [ids]
    · intro p hp
      simp only [List.nil_append, List.mem_singleton] at hp
      subst hp
      show 1 ≤ n + 1
      omega
  | some last =>
    have hlastmem : last ∈ team := by
      obtain ⟨l', hl'⟩ := List.getLast?_eq_some_iff.mp hlast
      subst hl'
      simp
    have hlastle : last.id ≤ n := hbound last hlastmem
    have hmod : (last.id + 1) % u32Mod = last.id + 1 :=
      Nat.mod_eq_of_lt (by omega)
    rw [create_pokemon_of_getLast_some payload team last hlast]
    constructor
    · rw [ids_append]
      rw [List.pairwise_append]
      refine ⟨hpair, by simp [ids], ?_⟩
      intro a ha b hb
      simp only [ids, List.map_cons, List.map_nil, List.mem_singleton] at hb
      subst hb
      obtain ⟨p, hp, rfl⟩ := List.mem_map.mp ha
      have := ids_le_getLast team last hpair hlast p hp
      omega
    · intro p hp
      rcases List.mem_append.mp hp with hp' | hp'
      · exact le_trans (hbound p hp') (by omega)
      · simp only [List.mem_singleton] at hp'
        subst hp'
        simp only [hmod]
        omega

theorem storeInv_update (n : Nat) (id : Nat) (payload : UpdatePokemon)
    (team : List Pokemon) (hinv : StoreInv n team) :
    StoreInv n (update_pokemon id payload team).1 := by
  obtain ⟨hpair, hbound⟩ := hinv
  have hids := ids_update_pokemon team id payload
  constructor
  · rw [hids]
    exact hpair
  · intro p hp
    have hmem : p.id ∈ ids (update_pokemon id payload team).1 :=
      List.mem_map_of_mem _ hp
    rw [hids] at hmem
    obtain ⟨q, hq, hqid⟩ := List.mem_map.mp hmem
    rw [← hqid]
    exact hbound q hq

theorem storeInv_delete (n : Nat) (id : Nat) (team : List Pokemon)
    (hinv : StoreInv n team) : StoreInv n (delete_pokemon id team).1 := by
  obtain ⟨hpair, hbound⟩ := hinv
  have hsub : (delete_pokemon id team).1.Sublist team := List.filter_sublist team
  constructor
  · exact List.Pairwise.sublist (hsub.map Pokemon.id) hpair
  · intro p hp
    exact hbound p (hsub.mem hp)

theorem createCount_cons (op : Op) (ops : List Op) :
    createCount (op :: ops) =
      createCount ops +
        (match op with | .createOp _ => 1 | _ => 0) := by
  cases op <;> simp [createCount, List.countP_cons]

theorem storeInv_execFrom :
    ∀ (ops : List Op) (n : Nat) (team : List Pokemon),
      StoreInv n team → n + createCount ops < u32Mod →
      StoreInv (n + createCount ops) (execFrom team ops)
  | [], n, team, hinv, _ => by
    simpa [createCount, execFrom] using hinv
  | op :: ops, n, team, hinv, hc => by
    rw [createCount_cons] at hc ⊢
    have hexec : execFrom team (op :: ops) = execFrom (applyOp team op) ops := rfl
    rw [hexec]
    cases op with
    | createOp payload =>
      simp only at hc ⊢
      have h1 : StoreInv (n + 1) (applyOp team (.createOp payload)) :=
        storeInv_create n team payload hinv (by omega)
      have h2 := storeInv_execFrom ops (n + 1) _ h1 (by omega)
      have harith : n + 1 + createCount ops = n + (createCount ops + 1) := by omega
      rwa [harith] at h2
    | updateOp id payload =>
      simp only at hc ⊢
      have h1 : StoreInv n (applyOp team (.updateOp id payload)) :=
        storeInv_update n id payload team hinv
      simpa using storeInv_execFrom ops n _ h1 (by omega)
    | deleteOp id =>
      simp only at hc ⊢
      have h1 : StoreInv n (applyOp team (.deleteOp id)) :=
        storeInv_delete n id team hinv
      simpa using storeInv_execFrom ops n _ h1 (by omega)

theorem storeInv_exec (ops : List Op) (hc : createCount ops < u32Mod) :
    StoreInv (createCount ops) (exec ops) := by
  have h0 : StoreInv 0 ([] : List Pokemon) := ⟨by simp [ids], by simp⟩
  simpa [exec] using storeInv_execFrom ops 0 [] h0 (by omega)

/-! ### Reachability of wrapped-around states

The id assignment adds 1 in u32 arithmetic. A (very long, but legal)
request trace therefore reaches states whose ids are not increasing and
even hold duplicate ids: create up to id 2^32 - 1, delete everything
below it, create once more (the id wraps to 0), then create until the
assigned id reaches 2^32 - 1 again. -/

theorem length_seg (a len : Nat) : (seg a len).length = len := by
  simp [seg]

theorem seg_concat (a len : Nat) :
    seg a (len + 1) = seg a len ++ [mkP (a + len)] := by
  simp [seg, List.range'_1_concat]

theorem seg_cons (a len : Nat) :
    seg a (len + 1) = mkP a :: seg (a + 1) len := by
  simp [seg, List.range'_succ]

theorem ids_seg (a len : Nat) : ids (seg a len) = List.range' a len := by
  unfold seg ids
  rw [List.map_map]
  exact List.map_id' _

theorem mem_seg (p : Pokemon) (a len : Nat) :
    p ∈ seg a len ↔ ∃ i, a ≤ i ∧ i < a + len ∧ p = mkP i := by
  simp only [seg, List.mem_map, List.mem_range'_1]
  constructor
  · rintro ⟨i, ⟨h1, h2⟩, rfl⟩
    exact ⟨i, h1, h2, rfl⟩
  · rintro ⟨i, h1, h2, rfl⟩
    exact ⟨i, ⟨h1, h2⟩, rfl⟩

theorem getLast?_seg (a len : Nat) :
    (seg a (len + 1)).getLast? = some (mkP (a + len)) := by
  rw [seg_concat, List.getLast?_concat]

theorem reachable_step {team : List Pokemon} (h : Reachable team) (op : Op) :
    Reachable (applyOp team op) := by
  obtain ⟨ops, hops⟩ := h
  refine ⟨ops ++ [op], ?_⟩
  simp only [exec, execFrom, List.foldl_append] at hops ⊢
  rw [hops]
  rfl

theorem u32Max_add_one : u32Max + 1 = u32Mod := by
  norm_num [u32Max, u32Mod]

/-- Creating on the segment 1..n extends it to 1..n+1, as long as no
wraparound occurs. -/
theorem applyOp_create_seg1 (n : Nat) (hn : n + 1 < u32Mod) :
    applyOp (seg 1 n) (Op.createOp bulbasaurReq) = seg 1 (n + 1) := by
  cases n with
  | zero => rfl
  | succ m =>
    show (create_pokemon bulbasaurReq (seg 1 (m + 1))).1 = seg 1 (m + 2)
    rw [create_pokemon_of_getLast_some bulbasaurReq _ (mkP (1 + m))
      (getLast?_seg 1 m)]
    have hmod : ((mkP (1 + m)).id + 1) % u32Mod = m + 2 := by
      show (1 + m + 1) % u32Mod = m + 2
      rw [Nat.mod_eq_of_lt (by omega)]
      omega
    simp only [hmod]
    rw [seg_concat 1 (m + 1)]
    have : 1 + (m + 1) = m + 2 := by omega
    rw [this]
    rfl

theorem reach_seg1 : ∀ n : Nat, n < u32Mod → Reachable (seg 1 n)
  | 0, _ => ⟨[], rfl⟩
  | n + 1, h => by
    have ih := reach_seg1 n (by omega)
    have step := reachable_step ih (Op.createOp bulbasaurReq)
    rwa [applyOp_create_seg1 n h] at step

/-- Deleting the first id of a segment chops off its head. -/
theorem applyOp_delete_seg (a len : Nat) :
    applyOp (seg a (len + 1)) (Op.deleteOp a) = seg (a + 1) len := by
  show (delete_pokemon a (seg a (len + 1))).1 = seg (a + 1) len
  unfold delete_pokemon
  simp only
  rw [seg_cons, List.filter_cons]
  have h1 : ((mkP a).id != a) = false := by simp [mkP]
  rw [h1]
  simp only [Bool.false_eq_true, if_false]
  refine List.filter_eq_self.mpr fun p hp => ?_
  obtain ⟨i, hi1, hi2, rfl⟩ := (mem_seg p (a + 1) len).mp hp
  simp only [mkP, bne_iff_ne, ne_eq]
  omega

theorem reach_seg_tail : ∀ k : Nat, k ≤ u32Max - 1 →
    Reachable (seg (1 + k) (u32Max - k))
  | 0, _ => by
    simpa using reach_seg1 u32Max (by norm_num [u32Max, u32Mod])
  | k + 1, hk => by
    have hmax := u32Max_add_one
    have ih := reach_seg_tail k (by omega)
    have hsub : u32Max - k = (u32Max - (k + 1)) + 1 := by omega
    rw [hsub] at ih
    have step := reachable_step ih (Op.deleteOp (1 + k))
    rw [applyOp_delete_seg (1 + k) (u32Max - (k + 1))] at step
    have harith : 1 + k + 1 = 1 + (k + 1) := by omega
    rwa [harith] at step

/-- The one-record state holding only id 2^32 - 1 is reachable. -/
theorem reach_single_max : Reachable [mkP u32Max] := by
  have hpos : 1 ≤ u32Max := by norm_num [u32Max, u32Mod]
  have h := reach_seg_tail (u32Max - 1) (le_refl _)
  have h1 : 1 + (u32Max - 1) = u32Max := by omega
  have h2 : u32Max - (u32Max - 1) = 1 := by omega
  rw [h1, h2] at h
  simpa [seg] using h

/-- Creating on the state whose last id is 2^32 - 1 wraps the id to 0. -/
theorem applyOp_create_on_max :
    applyOp [mkP u32Max] (Op.createOp bulbasaurReq) = mkP u32Max :: seg 0 1 := by
  show (create_pokemon bulbasaurReq [mkP u32Max]).1 = _
  rw [create_pokemon_of_getLast_some bulbasaurReq _ (mkP u32Max)
    (List.getLast?_singleton _)]
  have hmod : ((mkP u32Max).id + 1) % u32Mod = 0 := by
    show (u32Max + 1) % u32Mod = 0
    rw [u32Max_add_one, Nat.mod_self]
  simp only [hmod]
  rfl

/-- After the wraparound, creating keeps extending the trailing segment
0, 1, 2, ... while the record with id 2^32 - 1 stays at the front. -/
theorem applyOp_create_max_seg (n : Nat) (hn : n + 1 < u32Mod) :
    applyOp (mkP u32Max :: seg 0 (n + 1)) (Op.createOp bulbasaurReq) =
      mkP u32Max :: seg 0 (n + 2) := by
  show (create_pokemon bulbasaurReq _).1 = _
  have hlast : (mkP u32Max :: seg 0 (n + 1)).getLast? = some (mkP n) := by
    rw [seg_concat 0 n, ← List.cons_append, List.getLast?_concat]
    simp
  rw [create_pokemon_of_getLast_some bulbasaurReq _ (mkP n) hlast]
  have hmod : ((mkP n).id + 1) % u32Mod = n + 1 := by
    show (n + 1) % u32Mod = n + 1
    exact Nat.mod_eq_of_lt hn
  simp only [hmod]
  rw [seg_concat 0 (n + 1)]
  simp [mkP, bulbasaurReq]

theorem reach_max_seg : ∀ n : Nat, n ≤ u32Max →
    Reachable (mkP u32Max :: seg 0 (n + 1))
  | 0, _ => by
    have step := reachable_step reach_single_max (Op.createOp bulbasaurReq)
    rwa [applyOp_create_on_max] at step
  | n + 1, h => by
    have hmax := u32Max_add_one
    have ih := reach_max_seg n (by omega)
    have step := reachable_step ih (Op.createOp bulbasaurReq)
    rwa [applyOp_create_max_seg n (by omega)] at step

theorem reach_badDup : Reachable badDup :=
  reach_max_seg u32Max (le_refl _)

/-! ### Claim theorems for the simple handler claims -/

/-- Claim C1: for every collection state and creation payload,
create_pokemon assigns the new record the id of the last record plus
one in u32 arithmetic (1 when the collection is empty), appends the
new record at the end so the length grows by exactly one, and returns
the new record in full, its assigned id included. -/
theorem create_spec (team : List Pokemon) (payload : CreatePokemon) :
    (∀ last, team.getLast? = some last →
      (create_pokemon payload team).2.id = (last.id + 1) % u32Mod) ∧
    (team.getLast? = none → (create_pokemon payload team).2.id = 1) ∧
    (create_pokemon payload team).1 = team ++ [(create_pokemon payload team).2] ∧
    (create_pokemon payload team).1.length = team.length + 1 ∧
    (create_pokemon payload team).2.name = payload.name ∧
    (create_pokemon payload team).2.poke_type = payload.poke_type ∧
    (create_pokemon payload team).2.level = payload.level := by
  unfold create_pokemon
  cases h : team.getLast? <;> simp_all

/-- Witness for C1 at a concrete one-record collection. -/
theorem create_spec_witness :
    [pikachu].getLast? = some pikachu ∧
    (create_pokemon bulbasaurReq [pikachu]).2.id = (pikachu.id + 1) % u32Mod :=
  ⟨rfl, (create_spec [pikachu] bulbasaurReq).1 pikachu rfl⟩

/-- Claim C3: when the collection holds a record with the requested id,
update_pokemon rewrites, on the first such record, exactly the fields
present in the payload, keeps absent fields and the id at their prior
values, stores the result in place (all other records untouched) and
returns it; an all-absent payload is a no-op returning the record
unchanged, and a level-only payload changes only the level. -/
theorem update_found_spec (team : List Pokemon) (id : Nat)
    (payload : UpdatePokemon) (h : ∃ p ∈ team, p.id = id) :
    ∃ l1 p l2,
      team = l1 ++ p :: l2 ∧ p.id = id ∧ (∀ q ∈ l1, q.id ≠ id) ∧
      update_pokemon id payload team =
        (l1 ++ applyUpdate payload p :: l2, some (applyUpdate payload p)) ∧
      (applyUpdate payload p).id = p.id ∧
      (applyUpdate payload p).name = payload.name.getD p.name ∧
      (applyUpdate payload p).poke_type = payload.poke_type.getD p.poke_type ∧
      (applyUpdate payload p).level = payload.level.getD p.level ∧
      (payload.name = none → payload.poke_type = none → payload.level = none →
        update_pokemon id payload team = (team, some p)) ∧
      (∀ lv, payload.name = none → payload.poke_type = none →
        payload.level = some lv →
        applyUpdate payload p = { p with level := lv }) := by
  obtain ⟨l1, p, l2, hteam, hpid, hl1, heq⟩ := update_pokemon_found team id payload h
  refine ⟨l1, p, l2, hteam, hpid, hl1, heq, applyUpdate_id payload p,
    applyUpdate_name payload p, applyUpdate_poke_type payload p,
    applyUpdate_level payload p, ?_, ?_⟩
  · intro hn ht hl
    rw [heq, applyUpdate_none payload p hn ht hl, hteam]
  · intro lv hn ht hl
    exact applyUpdate_level_only payload p lv hn ht hl

/-- Witness for C3: a level-only update of the second record of a
concrete two-record collection. -/
theorem update_found_spec_witness :
    (∃ p ∈ [pikachu, bulbasaur], p.id = 2) ∧
    (∃ l1 p l2,
      [pikachu, bulbasaur] = l1 ++ p :: l2 ∧ p.id = 2 ∧ (∀ q ∈ l1, q.id ≠ 2) ∧
      update_pokemon 2 levelTen [pikachu, bulbasaur] =
        (l1 ++ applyUpdate levelTen p :: l2, some (applyUpdate levelTen p)) ∧
      (applyUpdate levelTen p).id = p.id ∧
      (applyUpdate levelTen p).name = levelTen.name.getD p.name ∧
      (applyUpdate levelTen p).poke_type = levelTen.poke_type.getD p.poke_type ∧
      (applyUpdate levelTen p).level = levelTen.level.getD p.level ∧
      (levelTen.name = none → levelTen.poke_type = none → levelTen.level = none →
        update_pokemon 2 levelTen [pikachu, bulbasaur] = ([pikachu, bulbasaur], some p)) ∧
      (∀ lv, levelTen.name = none → levelTen.poke_type = none →
        levelTen.level = some lv →
        applyUpdate levelTen p = { p with level := lv })) :=
  ⟨⟨bulbasaur, by simp, rfl⟩,
    update_found_spec [pikachu, bulbasaur] 2 levelTen ⟨bulbasaur, by simp, rfl⟩⟩

/-- Claim C4: delete_pokemon signals success exactly when the length
strictly decreased, equivalently exactly when some record carried the
requested id; on a miss it signals NOT_FOUND and the collection is
exactly unchanged. -/
theorem delete_spec (team : List Pokemon) (id : Nat) :
    ((delete_pokemon id team).2 = true ↔
      (delete_pokemon id team).1.length < team.length) ∧
    ((delete_pokemon id team).2 = true ↔ ∃ p ∈ team, p.id = id) ∧
    ((∀ p ∈ team, p.id ≠ id) →
      (delete_pokemon id team).1 = team ∧ (delete_pokemon id team).2 = false) := by
  refine ⟨by simp [delete_pokemon], ?_, ?_⟩
  · simp only [delete_pokemon, decide_eq_true_eq]
    rw [List.length_filter_lt_length_iff_exists]
    simp
  · intro h
    have hfix : team.filter (fun p => p.id != id) = team :=
      List.filter_eq_self.mpr fun p hp => by simpa using h p hp
    simp [delete_pokemon, hfix]

/-- Witness for C4 at a concrete collection and an absent id. -/
theorem delete_spec_witness :
    (∀ p ∈ [pikachu], p.id ≠ 7) ∧
    (delete_pokemon 7 [pikachu]).1 = [pikachu] ∧
    (delete_pokemon 7 [pikachu]).2 = false :=
  ⟨by decide, (delete_spec [pikachu] 7).2.2 (by decide)⟩

/-- Claim C6: update_pokemon on an id absent from the collection signals
NOT_FOUND and leaves the collection exactly unchanged. -/
theorem update_not_found_spec (team : List Pokemon) (id : Nat)
    (payload : UpdatePokemon) (h : ∀ p ∈ team, p.id ≠ id) :
    update_pokemon id payload team = (team, none) :=
  update_pokemon_miss team id payload h

/-- Witness for C6 at a concrete collection and an absent id. -/
theorem update_not_found_spec_witness :
    (∀ p ∈ [pikachu], p.id ≠ 7) ∧
    update_pokemon 7 levelTen [pikachu] = ([pikachu], none) :=
  ⟨by decide, update_not_found_spec [pikachu] 7 levelTen (by decide)⟩

/-- Claim C7: get_all_pokemon returns the whole collection in insertion
order without mutating it, an empty collection yields the empty list
rather than an error, and updates never reorder records: the id
sequence in insertion order is invariant under update_pokemon. -/
theorem list_all_spec (team : List Pokemon) :
    get_all_pokemon team = team ∧
    get_all_pokemon ([] : List Pokemon) = [] ∧
    ∀ id payload, ids (update_pokemon id payload team).1 = ids team :=
  ⟨rfl, rfl, fun id payload => ids_update_pokemon team id payload⟩

/-- Claim C8: get_pokemon_by_id returns the first record in insertion
order whose id matches (every earlier record has a different id),
signals NOT_FOUND exactly when no record with the id is present, and
after an update that found its record it returns exactly the record the
update stored, i.e. the most recently updated version. -/
theorem get_by_id_spec (team : List Pokemon) (id : Nat) :
    (get_pokemon_by_id id team = none ↔ ∀ p ∈ team, p.id ≠ id) ∧
    (∀ p, get_pokemon_by_id id team = some p →
      p.id = id ∧ ∃ l1 l2, team = l1 ++ p :: l2 ∧ ∀ q ∈ l1, q.id ≠ id) ∧
    (∀ payload p', (update_pokemon id payload team).2 = some p' →
      get_pokemon_by_id id (update_pokemon id payload team).1 = some p') :=
  ⟨get_pokemon_by_id_eq_none_iff team id,
    fun p h => get_pokemon_by_id_eq_some team id p h,
    fun payload p' h => get_pokemon_by_id_after_update team id payload p' h⟩

/-- Witness for C8 at a concrete collection: a matching lookup. -/
theorem get_by_id_spec_witness :
    get_pokemon_by_id 1 [pikachu] = some pikachu ∧
    (pikachu.id = 1 ∧
      ∃ l1 l2, [pikachu] = l1 ++ pikachu :: l2 ∧ ∀ q ∈ l1, q.id ≠ 1) :=
  ⟨rfl, (get_by_id_spec [pikachu] 1).2.1 pikachu rfl⟩

/-! ### Claims about reachable states: uniqueness and monotonicity of
ids, and what u32 wraparound does to them -/

/-- Counterexample to C2 as stated: the reachable state badDup (built
by wrapping the u32 id counter around) holds two records with id
2^32 - 1, so uniqueness of ids does not hold in every reachable
state. -/
theorem unique_ids_counterexample :
    ¬ ∀ team : List Pokemon, Reachable team → ∀ i : Nat,
      (ids team).count i ≤ 1 := by
  intro h
  have hcount := h badDup reach_badDup u32Max
  have hids : ids badDup = u32Max :: List.range' 0 (u32Max + 1) := by
    show ids (mkP u32Max :: seg 0 (u32Max + 1)) = _
    rw [ids_cons, ids_seg]
    rfl
  rw [hids, List.count_cons_self] at hcount
  have hmem : u32Max ∈ List.range' 0 (u32Max + 1) := by
    simp [List.mem_range'_1]
  have hpos := List.count_pos_iff.mpr hmem
  omega

/-- Claim C2 (amended): in every state reachable by a request sequence
performing fewer than 2^32 creations — so that the u32 id counter never
wraps around — at most one record with any given id value exists. -/
theorem unique_ids_spec (ops : List Op) (hc : createCount ops < u32Mod)
    (i : Nat) : (ids (exec ops)).count i ≤ 1 := by
  have hpair := (storeInv_exec ops hc).1
  have hnodup : (ids (exec ops)).Nodup := hpair.imp fun h => Nat.ne_of_lt h
  exact List.nodup_iff_count_le_one.mp hnodup i

/-- Witness for the amended C2 on a concrete two-request trace. -/
theorem unique_ids_spec_witness :
    createCount [Op.createOp bulbasaurReq, Op.createOp bulbasaurReq] < u32Mod ∧
    (ids (exec [Op.createOp bulbasaurReq, Op.createOp bulbasaurReq])).count 1 ≤ 1 :=
  ⟨by decide,
    unique_ids_spec [Op.createOp bulbasaurReq, Op.createOp bulbasaurReq]
      (by decide) 1⟩

/-- Counterexample to C5 as stated: in the reachable state badDup two
records carry id 2^32 - 1, so deleting that id removes two records and
the length does not decrease by exactly one. -/
theorem delete_found_counterexample :
    ¬ ∀ (team : List Pokemon) (id : Nat), Reachable team →
      (∃ p ∈ team, p.id = id) →
      (delete_pokemon id team).1.length + 1 = team.length := by
  intro h
  have hlen := h badDup u32Max reach_badDup
    ⟨mkP u32Max, List.mem_cons_self .., rfl⟩
  have hmax := u32Max_add_one
  have hdel : (delete_pokemon u32Max badDup).1 = seg 0 u32Max := by
    show (badDup.filter fun p => p.id != u32Max) = seg 0 u32Max
    show ((mkP u32Max :: seg 0 (u32Max + 1)).filter fun p => p.id != u32Max) = _
    rw [List.filter_cons]
    have h1 : ((mkP u32Max).id != u32Max) = false := by simp [mkP]
    rw [h1]
    simp only [Bool.false_eq_true, if_false]
    rw [seg_concat 0 u32Max, List.filter_append]
    have h2 : ((seg 0 u32Max).filter fun p => p.id != u32Max) = seg 0 u32Max := by
      refine List.filter_eq_self.mpr fun p hp => ?_
      obtain ⟨i, _, hi2, rfl⟩ := (mem_seg p 0 u32Max).mp hp
      simp only [mkP, bne_iff_ne, ne_eq]
      omega
    have h3 : (([mkP (0 + u32Max)] : List Pokemon).filter
        fun p => p.id != u32Max) = [] := by
      simp [mkP]
    rw [h2, h3, List.append_nil]
  rw [hdel, length_seg] at hlen
  have hblen : badDup.length = u32Max + 2 := by
    show (mkP u32Max :: seg 0 (u32Max + 1)).length = u32Max + 2
    rw [List.length_cons, length_seg]
  rw [hblen] at hlen
  omega

/-- Claim C5 (amended): in every state reachable by a request sequence
performing fewer than 2^32 creations (so ids never wrapped around) and
containing a record with the given id, delete removes exactly that
record, preserving the relative order of the remaining records, the
length drops by exactly one, the handler signals success, and a
subsequent lookup of that id reports NOT_FOUND. -/
theorem delete_found_spec (ops : List Op) (id : Nat)
    (hc : createCount ops < u32Mod) (h : ∃ p ∈ exec ops, p.id = id) :
    ∃ l1 p l2, exec ops = l1 ++ p :: l2 ∧ p.id = id ∧
      (∀ q ∈ l1, q.id ≠ id) ∧ (∀ q ∈ l2, q.id ≠ id) ∧
      (delete_pokemon id (exec ops)).1 = l1 ++ l2 ∧
      (delete_pokemon id (exec ops)).1.length + 1 = (exec ops).length ∧
      (delete_pokemon id (exec ops)).2 = true ∧
      get_pokemon_by_id id (delete_pokemon id (exec ops)).1 = none := by
  obtain ⟨p, hmem, hpid⟩ := h
  obtain ⟨l1, l2, hsplit⟩ := List.append_of_mem hmem
  have hnodup : (ids (exec ops)).Nodup :=
    ((storeInv_exec ops hc).1).imp fun h => Nat.ne_of_lt h
  rw [hsplit, ids_append, ids_cons] at hnodup
  have hparts := List.nodup_append.mp hnodup
  have hnotl1 : p.id ∉ ids l1 := fun hin =>
    hparts.2.2 hin (List.mem_cons_self ..)
  have hnotl2 : p.id ∉ ids l2 := (List.nodup_cons.mp hparts.2.1).1
  have hl1 : ∀ q ∈ l1, q.id ≠ id := by
    intro q hq hqid
    apply hnotl1
    have hqm : q.id ∈ ids l1 := List.mem_map_of_mem _ hq
    rwa [hqid, ← hpid] at hqm
  have hl2 : ∀ q ∈ l2, q.id ≠ id := by
    intro q hq hqid
    apply hnotl2
    have hqm : q.id ∈ ids l2 := List.mem_map_of_mem _ hq
    rwa [hqid, ← hpid] at hqm
  have hfilter : ((exec ops).filter fun q => q.id != id) = l1 ++ l2 := by
    rw [hsplit, List.filter_append, List.filter_cons]
    have hp : (p.id != id) = false := by simp [hpid]
    rw [hp]
    simp only [Bool.false_eq_true, if_false]
    rw [List.filter_eq_self.mpr fun q hq => by simpa using hl1 q hq,
      List.filter_eq_self.mpr fun q hq => by simpa using hl2 q hq]
  have hdel1 : (delete_pokemon id (exec ops)).1 = l1 ++ l2 := hfilter
  have hlen : (delete_pokemon id (exec ops)).1.length + 1 = (exec ops).length := by
    rw [hdel1, hsplit]
    simp only [List.length_append, List.length_cons]
    omega
  refine ⟨l1, p, l2, hsplit, hpid, hl1, hl2, hdel1, hlen, ?_, ?_⟩
  · show decide _ = true
    rw [decide_eq_true_eq, hfilter, hsplit]
    simp
  · refine (get_pokemon_by_id_eq_none_iff _ id).mpr ?_
    rw [hdel1]
    intro q hq
    rcases List.mem_append.mp hq with hq' | hq'
    · exact hl1 q hq'
    · exact hl2 q hq'

/-- Witness for the amended C5 on a concrete one-request trace. -/
theorem delete_found_spec_witness :
    createCount [Op.createOp bulbasaurReq] < u32Mod ∧
    (∃ p ∈ exec [Op.createOp bulbasaurReq], p.id = 1) ∧
    (∃ l1 p l2, exec [Op.createOp bulbasaurReq] = l1 ++ p :: l2 ∧ p.id = 1 ∧
      (∀ q ∈ l1, q.id ≠ 1) ∧ (∀ q ∈ l2, q.id ≠ 1) ∧
      (delete_pokemon 1 (exec [Op.createOp bulbasaurReq])).1 = l1 ++ l2 ∧
      (delete_pokemon 1 (exec [Op.createOp bulbasaurReq])).1.length + 1 =
        (exec [Op.createOp bulbasaurReq]).length ∧
      (delete_pokemon 1 (exec [Op.createOp bulbasaurReq])).2 = true ∧
      get_pokemon_by_id 1 (delete_pokemon 1 (exec [Op.createOp bulbasaurReq])).1 =
        none) :=
  ⟨by decide, by decide,
    delete_found_spec [Op.createOp bulbasaurReq] 1 (by decide) (by decide)⟩

/-- Counterexample to C9 as stated: on a collection whose last record
has id 2^32 - 1, u32 addition wraps and create_pokemon assigns id 0,
which is not positive. -/
theorem create_id_pos_counterexample :
    ¬ ∀ (team : List Pokemon) (payload : CreatePokemon),
      0 < (create_pokemon payload team).2.id := by
  intro h
  have h0 := h [mkP u32Max] bulbasaurReq
  have heq : (create_pokemon bulbasaurReq [mkP u32Max]).2.id = 0 := by
    rw [create_pokemon_of_getLast_some bulbasaurReq _ (mkP u32Max)
      (List.getLast?_singleton _)]
    show (u32Max + 1) % u32Mod = 0
    rw [u32Max_add_one, Nat.mod_self]
  omega

/-- Claim C9 (amended): the id assigned by create_pokemon (computed in
u32 arithmetic, i.e. modulo 2^32) is strictly positive whenever the
collection is empty or its last record's id is below 2^32 - 1, so that
the addition does not wrap around. -/
theorem create_id_pos_spec (team : List Pokemon) (payload : CreatePokemon)
    (h : ∀ last, team.getLast? = some last → last.id < u32Max) :
    0 < (create_pokemon payload team).2.id := by
  cases hlast : team.getLast? with
  | none =>
    rw [create_pokemon_of_getLast_none payload team hlast]
    norm_num
  | some last =>
    have hlt := h last hlast
    rw [create_pokemon_of_getLast_some payload team last hlast]
    show 0 < (last.id + 1) % u32Mod
    have hm : last.id + 1 < u32Mod := by
      have := u32Max_add_one
      omega
    rw [Nat.mod_eq_of_lt hm]
    omega

/-- Witness for the amended C9 at a concrete one-record collection. -/
theorem create_id_pos_spec_witness :
    (∀ last, [pikachu].getLast? = some last → last.id < u32Max) ∧
    0 < (create_pokemon bulbasaurReq [pikachu]).2.id := by
  have hhyp : ∀ last, [pikachu].getLast? = some last → last.id < u32Max := by
    intro last hl
    simp only [List.getLast?_singleton, Option.some.injEq] at hl
    subst hl
    norm_num [pikachu, u32Max, u32Mod]
  exact ⟨hhyp, create_id_pos_spec [pikachu] bulbasaurReq hhyp⟩

/-- Counterexample to C10 as stated: the reachable state obtained right
after the id counter wraps around has id sequence [2^32 - 1, 0], which
is not strictly increasing. -/
theorem ids_increasing_counterexample :
    ¬ ∀ team : List Pokemon, Reachable team →
      (ids team).Pairwise (· < ·) := by
  intro h
  have hr : Reachable (mkP u32Max :: seg 0 1) := reach_max_seg 0 (Nat.zero_le _)
  have hp := h _ hr
  have hids : ids (mkP u32Max :: seg 0 1) = [u32Max, 0] := by
    rw [ids_cons, ids_seg]
    rfl
  rw [hids] at hp
  have hlt : u32Max < 0 := (List.pairwise_cons.mp hp).1 0 (List.mem_cons_self ..)
  omega

/-- Claim C10 (amended): in every state reachable by a request sequence
performing fewer than 2^32 creations (so ids never wrapped around), the
id sequence in insertion order is strictly increasing; update and
delete preserve this, and — as long as one more creation does not wrap
either — so does create, whose assigned id is strictly greater than
every id currently in the collection and hence collides with no
existing record. -/
theorem ids_increasing_spec (ops : List Op) (hc : createCount ops < u32Mod) :
    (ids (exec ops)).Pairwise (· < ·) ∧
    (∀ id payload,
      (ids (update_pokemon id payload (exec ops)).1).Pairwise (· < ·)) ∧
    (∀ id, (ids (delete_pokemon id (exec ops)).1).Pairwise (· < ·)) ∧
    (∀ payload, createCount ops + 1 < u32Mod →
      (ids (create_pokemon payload (exec ops)).1).Pairwise (· < ·) ∧
      ∀ p ∈ exec ops, p.id < (create_pokemon payload (exec ops)).2.id) := by
  have hinv := storeInv_exec ops hc
  refine ⟨hinv.1, ?_, ?_, ?_⟩
  · intro id payload
    exact (storeInv_update (createCount ops) id payload _ hinv).1
  · intro id
    exact (storeInv_delete (createCount ops) id _ hinv).1
  · intro payload hc1
    refine ⟨(storeInv_create (createCount ops) _ payload hinv hc1).1, ?_⟩
    intro p hp
    cases hlast : (exec ops).getLast? with
    | none =>
      rw [List.getLast?_eq_none_iff.mp hlast] at hp
      simp at hp
    | some last =>
      have hle := ids_le_getLast _ last hinv.1 hlast p hp
      have hlastmem : last ∈ exec ops := by
        obtain ⟨l', hl'⟩ := List.getLast?_eq_some_iff.mp hlast
        rw [hl']
        simp
      have hlastle : last.id ≤ createCount ops := hinv.2 last hlastmem
      rw [create_pokemon_of_getLast_some payload _ last hlast]
      show p.id < (last.id + 1) % u32Mod
      rw [Nat.mod_eq_of_lt (by omega)]
      omega

/-- Witness for the amended C10 on a concrete one-request trace. -/
theorem ids_increasing_spec_witness :
    createCount [Op.createOp bulbasaurReq] < u32Mod ∧
    (ids (exec [Op.createOp bulbasaurReq])).Pairwise (· < ·) ∧
    (∀ p ∈ exec [Op.createOp bulbasaurReq],
      p.id < (create_pokemon bulbasaurReq (exec [Op.createOp bulbasaurReq])).2.id) :=
  ⟨by decide, (ids_increasing_spec [Op.createOp bulbasaurReq] (by decide)).1,
    ((ids_increasing_spec [Op.createOp bulbasaurReq] (by decide)).2.2.2
      bulbasaurReq (by decide)).2⟩

end PokeApi
